import Mathlib

/-
Verification of the history-tracking core of django-historicalrecords.

The development shallowly embeds the code of src/history/models.py and
src/history/manager.py: field descriptors, the derived historical schema,
the history table, and the save/delete hooks become executable Lean
functions.  Machine-level collaborator behaviour that the code relies on is
embedded at the semantics the host (Django) documents: `Model(*values)`
assigns values to the schema's fields positionally in declaration order,
`values_list` refuses names that are not fields of the queried schema, and
a queryset ordered by `-history_id` yields the entry with the greatest
`history_id` first (history_id is an AutoField primary key, so ids are
distinct in any real table).
-/

namespace History

/-- Runtime values stored on model instances and on historical entries.
`Value.none` is Python's `None`, which is also the default an unset
integer-valued attribute reads back. -/
inductive Value where
  | none
  | int (n : Int)
  | str (s : String)
deriving DecidableEq, Repr

/-- The field kinds the transformation rules of `copy_fields` distinguish. -/
inductive FieldKind where
  | auto
  | integer
  | char
  | foreignKey
  | oneToOne
deriving DecidableEq, Repr

/-- A Django field descriptor: the attributes read or mutated by
`HistoricalRecords.copy_fields` and by the selection rule. -/
structure Field where
  name : String
  kind : FieldKind
  primary_key : Bool
  unique : Bool
  db_index : Bool
  null : Bool
  blank : Bool
  related_name : Option String
  target : Option String
  verbose_name : String
deriving DecidableEq, Repr

/-- A source model schema: `_meta.object_name` and the ordered `_meta.fields`. -/
structure ModelSchema where
  object_name : String
  fields : List Field
deriving DecidableEq, Repr

/-- `instance._meta.pk.name`: the name of the primary-key field. -/
def ModelSchema.pkName (m : ModelSchema) : String :=
  ((m.fields.find? (fun f => f.primary_key)).map (fun f => f.name)).getD "id"

/-- The `HistoricalRecords(module=None, fields=None)` configuration object. -/
structure HistoricalRecords where
  _module : Option String
  _fields : Option (List String)
deriving DecidableEq, Repr

/-- Python truthiness of the `fields` option as tested by `not self._fields`:
`None` and the empty list are both falsy. -/
def fieldsFalsy : Option (List String) → Bool
  | Option.none => true
  | Option.some l => l.isEmpty

/-- `HistoricalRecords.get_important_fields`: yield each field of the model
with `f.name == 'id' or not self._fields or f.name in self._fields`. -/
def HistoricalRecords.get_important_fields (hr : HistoricalRecords) (model : ModelSchema) :
    List Field :=
  model.fields.filter (fun f =>
    f.name == "id" || fieldsFalsy hr._fields || (hr._fields.getD []).contains f.name)

/-- `HistoricalRecords.get_important_field_names` (the fields here are plain
columns, whose `attname` is their `name`). -/
def HistoricalRecords.get_important_field_names (hr : HistoricalRecords)
    (model : ModelSchema) : List String :=
  (hr.get_important_fields model).map (fun f => f.name)

/-- One step of `HistoricalRecords.copy_fields`: `deepcopy` the descriptor
(value semantics make that the identity), then apply the mutation branches in
the source's order.  The fresh `ForeignKey` built for a `OneToOneField`
carries Django's constructor defaults (`db_index=True`, not unique, not a
primary key) plus the arguments the source passes. -/
def copy_field (field : Field) : Field :=
  let field1 := if field.kind == FieldKind.auto then
      { field with kind := FieldKind.integer } else field
  let field2 := if field1.primary_key || field1.unique then
      { field1 with primary_key := false, unique := false, db_index := true } else field1
  let field3 := if field2.kind == FieldKind.foreignKey || field2.kind == FieldKind.oneToOne then
      { field2 with related_name := Option.some "+" } else field2
  if field3.kind == FieldKind.oneToOne then
    { name := field3.name, kind := FieldKind.foreignKey, primary_key := false,
      unique := false, db_index := true, null := true, blank := true,
      related_name := Option.some "+", target := field3.target,
      verbose_name := field3.name }
  else field3

/-- `HistoricalRecords.copy_fields`: the dictionary mapping each important
field's name to its transformed copy, in iteration order. -/
def HistoricalRecords.copy_fields (hr : HistoricalRecords) (model : ModelSchema) :
    List (String × Field) :=
  (hr.get_important_fields model).map (fun f => (f.name, copy_field f))

/-- `HistoricalRecords.get_meta_options`. -/
def get_meta_options : List (String × String) :=
  [("ordering", "-history_id"), ("get_latest_by", "history_id")]

/-- A row of the historical table: the four metadata fields plus the stored
copy of every important source field (keyed by name). -/
structure HistoryEntry where
  history_id : Nat
  history_date : Nat
  history_type : Char
  history_editor : Option Nat
  values : List (String × Value)
deriving DecidableEq, Repr

/-- Read a stored source-field value off an entry. -/
def HistoryEntry.getValue (e : HistoryEntry) (f : String) : Value :=
  ((e.values.find? (fun p => p.1 == f)).map (fun p => p.2)).getD Value.none

/-- A live instance of the source model: its field attributes plus the
`_history_editor` attribute the wrapped save method maintains. -/
structure Instance where
  attrs : List (String × Value)
  _history_editor : Option Nat
deriving DecidableEq, Repr

/-- `getattr(instance, f)`: an attribute that was never assigned reads back
as the field default, modelled as `Value.none`. -/
def Instance.getattr (inst : Instance) (f : String) : Value :=
  ((inst.attrs.find? (fun p => p.1 == f)).map (fun p => p.2)).getD Value.none

/-- Django's positional model constructor `Model(*vals)`: values are bound to
the schema's fields in declaration order; fields beyond the argument list
keep their defaults. -/
def mkInstancePositional (m : ModelSchema) (vals : List Value) : Instance :=
  { attrs := (m.fields.zip vals).map (fun p => (p.1.name, p.2)),
    _history_editor := Option.none }

/-- `order_by('-history_id')[0]` as an Option: the entry with the greatest
`history_id`, if any.  (`history_id` is the AutoField primary key, so ids
are distinct in a real table and the tie branch is immaterial.) -/
def qsFirstDesc : List HistoryEntry → Option HistoryEntry
  | [] => Option.none
  | e :: es =>
    match qsFirstDesc es with
    | Option.none => Option.some e
    | Option.some m =>
      if m.history_id < e.history_id then Option.some e else Option.some m

/-- Everything `finalize` wires up for one tracked model: the source schema
and the `HistoricalRecords` configuration that derived its history model. -/
structure TrackedModel where
  model : ModelSchema
  hr : HistoricalRecords
deriving DecidableEq, Repr

/-- The important-field names, as both the manager and the signal hooks
recompute them. -/
def TrackedModel.importantNames (tm : TrackedModel) : List String :=
  tm.hr.get_important_field_names tm.model

/-- The source-field columns the historical model actually stores: the keys
of `copy_fields`. -/
def TrackedModel.storedNames (tm : TrackedModel) : List String :=
  (tm.hr.copy_fields tm.model).map (fun p => p.1)

/-- `HistoryManager.get_queryset` in instance-scoped mode: entries whose
stored primary-key column equals the instance's primary key. -/
def TrackedModel.get_queryset (tm : TrackedModel) (table : List HistoryEntry)
    (inst : Instance) : List HistoryEntry :=
  table.filter (fun e => e.getValue tm.model.pkName == inst.getattr tm.model.pkName)

/-- The exceptional outcomes of the manager methods.  The first three are the
model's `DoesNotExist` raised with three different messages ("has no
historical record", "had not yet been created", "had already been deleted");
`fieldError` is Django's `FieldError` for a `values_list` name that is not a
field of the queried schema. -/
inductive HistoryExc where
  | noHistoricalRecord
  | notYetCreated
  | alreadyDeleted
  | fieldError
deriving DecidableEq, Repr

/-- Which exceptions an `except instance.DoesNotExist` clause catches. -/
def HistoryExc.isDoesNotExist : HistoryExc → Bool
  | HistoryExc.fieldError => false
  | _ => true

/-- `HistoryManager.most_recent`: `values_list(*important_fields)[0]` on the
instance-scoped queryset, then the positional constructor
`self.instance.__class__(*values)`. -/
def TrackedModel.most_recent (tm : TrackedModel) (table : List HistoryEntry)
    (inst : Instance) : Except HistoryExc Instance :=
  let fields := tm.importantNames
  if fields.all (fun n => tm.storedNames.contains n) then
    match qsFirstDesc (tm.get_queryset table inst) with
    | Option.none => Except.error HistoryExc.noHistoricalRecord
    | Option.some e =>
        Except.ok (mkInstancePositional tm.model (fields.map (fun f => e.getValue f)))
  else Except.error HistoryExc.fieldError

/-- The field names `as_of` asks `values_list` for: every field of the
source schema, in declaration order. -/
def as_of_field_names (tm : TrackedModel) : List String :=
  tm.model.fields.map (fun f => f.name)

/-- `HistoryManager.as_of`: filter to `history_date <= date`, take the first
row of `values_list('history_type', *all_source_fields)` under the
`-history_id` ordering, raise on an empty queryset or on a deletion row,
else rebuild positionally. -/
def TrackedModel.as_of (tm : TrackedModel) (table : List HistoryEntry)
    (inst : Instance) (date : Nat) : Except HistoryExc Instance :=
  let fields := as_of_field_names tm
  if fields.all (fun n => tm.storedNames.contains n) then
    let qs := (tm.get_queryset table inst).filter (fun e => e.history_date ≤ date)
    match qsFirstDesc qs with
    | Option.none => Except.error HistoryExc.notYetCreated
    | Option.some e =>
        if e.history_type == '-' then Except.error HistoryExc.alreadyDeleted
        else Except.ok (mkInstancePositional tm.model (fields.map (fun f => e.getValue f)))
  else Except.error HistoryExc.fieldError

/-- The persistent side of the world the hooks mutate: the history table and the
next value of the `history_id` AutoField. -/
structure SaveState where
  table : List HistoryEntry
  next_id : Nat
deriving DecidableEq, Repr

/-- `HistoricalRecords.create_historical_record`: copy every important field
value off the instance and insert one new row. -/
def TrackedModel.create_historical_record (tm : TrackedModel) (st : SaveState)
    (inst : Instance) (editor : Option Nat) (htype : Char) (now : Nat) : SaveState :=
  let attrs := tm.importantNames.map (fun f => (f, inst.getattr f))
  { table := st.table ++
      [{ history_id := st.next_id, history_date := now, history_type := htype,
         history_editor := editor, values := attrs }],
    next_id := st.next_id + 1 }

/-- `HistoricalRecords.post_save`: skip raw loads; otherwise fetch the most
recent entry (treating `DoesNotExist` as "no prior entry"), compare every
important field, and on any difference — or with no prior entry — insert a
record whose type is `created and '+' or '~'` and whose editor is the
staged `instance._history_editor`.  An uncaught exception propagates. -/
def TrackedModel.post_save (tm : TrackedModel) (st : SaveState) (inst : Instance)
    (created : Bool) (raw : Bool) (now : Nat) : Except HistoryExc SaveState :=
  if raw then Except.ok st
  else
    let decision : Except HistoryExc Bool :=
      match tm.most_recent st.table inst with
      | Except.error e =>
          if e.isDoesNotExist then Except.ok true else Except.error e
      | Except.ok mr =>
          Except.ok (tm.importantNames.any (fun f => inst.getattr f != mr.getattr f))
    match decision with
    | Except.error e => Except.error e
    | Except.ok true =>
        Except.ok (tm.create_historical_record st inst inst._history_editor
          (if created then '+' else '~') now)
    | Except.ok false => Except.ok st

/-- `HistoricalRecords.post_delete`: one `'-'` record with editor `None`. -/
def TrackedModel.post_delete (tm : TrackedModel) (st : SaveState) (inst : Instance)
    (now : Nat) : SaveState :=
  tm.create_historical_record st inst Option.none '-' now

/-- The body of the wrapped save method installed by `capture_save_method`:
`self._history_editor = kwargs.pop('editor', getattr(self, '_history_editor',
None))`.  `editor_kw = none` means the keyword was not passed at all. -/
def captureEditor (inst : Instance) (editor_kw : Option (Option Nat)) : Instance :=
  { inst with _history_editor :=
      match editor_kw with
      | Option.some e => e
      | Option.none => inst._history_editor }

/-- A full `save(editor=...)` call: stage the editor, run the original save
(which fires `post_save`), and return the new table state together with the
instance as the call leaves it. -/
def TrackedModel.save (tm : TrackedModel) (st : SaveState) (inst : Instance)
    (editor_kw : Option (Option Nat)) (created : Bool) (raw : Bool) (now : Nat) :
    Except HistoryExc (SaveState × Instance) :=
  let inst' := captureEditor inst editor_kw
  match tm.post_save st inst' created raw now with
  | Except.error e => Except.error e
  | Except.ok st' => Except.ok (st', inst')

/-- The `set_editor` method added by `create_set_editor_method`. -/
def set_editor (inst : Instance) (editor : Option Nat) : Instance :=
  { inst with _history_editor := editor }

/-- A `HistoryChange` record as produced by `modified_fields`. -/
structure HistoryChange where
  name : String
  from_value : Value
  to_value : Value
  verbose_name : Option String
deriving DecidableEq, Repr

/-- The `get_verbose_name` helper inside `create_history_model`. -/
def get_verbose_name (model : ModelSchema) (field_name : String) : Option String :=
  (model.fields.find? (fun f => f.name == field_name)).map (fun f => f.verbose_name)

/-- `HistoricalObjectDescriptor.__get__`: project the entry's stored
important-field values back onto a source-schema instance by keyword. -/
def HistoryEntry.history_object (tm : TrackedModel) (e : HistoryEntry) : Instance :=
  { attrs := tm.importantNames.map (fun f => (f, e.getValue f)),
    _history_editor := Option.none }

/-- `HistoryEntry.previous_entry`: the first element of the instance-scoped
queryset ordered by `-history_id` and filtered to `history_id < self's`. -/
def HistoryEntry.previous_entry (tm : TrackedModel) (table : List HistoryEntry)
    (e : HistoryEntry) : Option HistoryEntry :=
  qsFirstDesc ((tm.get_queryset table (e.history_object tm)).filter
    (fun p => p.history_id < e.history_id))

/-- `HistoryEntry.modified_fields`. -/
def HistoryEntry.modified_fields (tm : TrackedModel) (table : List HistoryEntry)
    (e : HistoryEntry) : List HistoryChange :=
  match e.previous_entry tm table with
  | Option.some previous =>
      tm.importantNames.filterMap (fun f =>
        let from_value := previous.getValue f
        let to_value := e.getValue f
        if from_value != to_value then
          Option.some { name := f, from_value := from_value, to_value := to_value,
                        verbose_name := get_verbose_name tm.model f }
        else Option.none)
  | Option.none =>
      tm.importantNames.map (fun f =>
        { name := f, from_value := Value.none, to_value := e.getValue f,
          verbose_name := get_verbose_name tm.model f })

instance {ε α : Type} [DecidableEq ε] [DecidableEq α] : DecidableEq (Except ε α) :=
  fun a b =>
  match a, b with
  | Except.error x, Except.error y =>
      if h : x = y then Decidable.isTrue (congrArg Except.error h)
      else Decidable.isFalse (fun hc => h (Except.error.inj hc))
  | Except.ok x, Except.ok y =>
      if h : x = y then Decidable.isTrue (congrArg Except.ok h)
      else Decidable.isFalse (fun hc => h (Except.ok.inj hc))
  | Except.error _, Except.ok _ => Decidable.isFalse (fun hc => Except.noConfusion hc)
  | Except.ok _, Except.error _ => Decidable.isFalse (fun hc => Except.noConfusion hc)

/-! ### Helper lemmas about the embedded querysets and managers -/

theorem list_contains_iff (l : List String) (a : String) : l.contains a = true ↔ a ∈ l :=
  List.contains_iff_exists_mem_beq.trans (by simp)

theorem storedNames_eq (tm : TrackedModel) : tm.storedNames = tm.importantNames := by
  simp [TrackedModel.storedNames, TrackedModel.importantNames,
    HistoricalRecords.copy_fields, HistoricalRecords.get_important_field_names,
    List.map_map, Function.comp]

theorem self_all_contains (l : List String) : (l.all (fun n => l.contains n)) = true := by
  rw [List.all_eq_true]
  intro x hx
  exact (list_contains_iff l x).mpr hx

/-- `most_recent` unfolded: the `values_list` names are exactly the stored
columns, so the field check always passes. -/
theorem most_recent_eq (tm : TrackedModel) (table : List HistoryEntry) (inst : Instance) :
    tm.most_recent table inst =
      match qsFirstDesc (tm.get_queryset table inst) with
      | Option.none => Except.error HistoryExc.noHistoricalRecord
      | Option.some e =>
          Except.ok (mkInstancePositional tm.model
            (tm.importantNames.map (fun f => e.getValue f))) := by
  have h : (tm.importantNames.all (fun n => tm.storedNames.contains n)) = true := by
    rw [storedNames_eq]; exact self_all_contains tm.importantNames
  simp only [TrackedModel.most_recent, h, if_true]

theorem most_recent_ne_fieldError (tm : TrackedModel) (table : List HistoryEntry)
    (inst : Instance) : tm.most_recent table inst ≠ Except.error HistoryExc.fieldError := by
  rw [most_recent_eq]
  cases qsFirstDesc (tm.get_queryset table inst) <;> simp

theorem qsFirstDesc_eq_none (l : List HistoryEntry) : qsFirstDesc l = Option.none ↔ l = [] := by
  cases l with
  | nil => simp [qsFirstDesc]
  | cons e es =>
      simp only [qsFirstDesc]
      cases qsFirstDesc es with
      | none => simp
      | some m => by_cases h : m.history_id < e.history_id <;> simp [h]

theorem qsFirstDesc_mem (l : List HistoryEntry) (e : HistoryEntry)
    (h : qsFirstDesc l = Option.some e) : e ∈ l := by
  induction l with
  | nil => simp [qsFirstDesc] at h
  | cons a t ih =>
      simp only [qsFirstDesc] at h
      cases hq : qsFirstDesc t with
      | none => rw [hq] at h; simp at h; simp [h]
      | some m =>
          rw [hq] at h
          by_cases hlt : m.history_id < a.history_id
          · simp [hlt] at h; simp [h]
          · simp [hlt] at h
            exact List.mem_cons_of_mem a (ih (h ▸ hq))

theorem qsFirstDesc_le (l : List HistoryEntry) :
    ∀ e, qsFirstDesc l = Option.some e → ∀ p, p ∈ l → p.history_id ≤ e.history_id := by
  induction l with
  | nil => intro e h; simp [qsFirstDesc] at h
  | cons a t ih =>
      intro e h p hp
      simp only [qsFirstDesc] at h
      cases hq : qsFirstDesc t with
      | none =>
          rw [hq] at h; simp at h
          rcases List.mem_cons.mp hp with h1 | h1
          · rw [h1, h]
          · rw [(qsFirstDesc_eq_none t).mp hq] at h1; simp at h1
      | some m =>
          rw [hq] at h
          by_cases hlt : m.history_id < a.history_id
          · simp [hlt] at h
            rcases List.mem_cons.mp hp with h1 | h1
            · rw [h1, h]
            · exact le_trans (ih m hq p h1) (h ▸ le_of_lt hlt)
          · simp [hlt] at h
            rcases List.mem_cons.mp hp with h1 | h1
            · rw [h1]; exact h ▸ le_of_not_lt hlt
            · exact h ▸ ih m hq p h1

theorem qsFirstDesc_eq_of_max (l : List HistoryEntry) (e : HistoryEntry)
    (he : e ∈ l) (hmax : ∀ p, p ∈ l → p ≠ e → p.history_id < e.history_id) :
    qsFirstDesc l = Option.some e := by
  induction l with
  | nil => simp at he
  | cons a t ih =>
      simp only [qsFirstDesc]
      rcases List.mem_cons.mp he with h1 | h1
      · subst h1
        cases hq : qsFirstDesc t with
        | none => rfl
        | some m =>
            have hm : m ∈ t := qsFirstDesc_mem t m hq
            by_cases hme : m = e
            · subst hme
              by_cases hlt : m.history_id < m.history_id
              · simp [hlt]
              · simp [hlt]
            · have : m.history_id < e.history_id :=
                hmax m (List.mem_cons_of_mem e hm) hme
              simp [this]
      · by_cases hae : a = e
        · subst hae
          cases hq : qsFirstDesc t with
          | none => rfl
          | some m =>
              have hm : m ∈ t := qsFirstDesc_mem t m hq
              by_cases hme : m = a
              · subst hme; simp
              · have : m.history_id < a.history_id :=
                  hmax m (List.mem_cons_of_mem a hm) hme
                simp [this]
        · have hrec : qsFirstDesc t = Option.some e :=
            ih h1 (fun p hp hpe => hmax p (List.mem_cons_of_mem a hp) hpe)
          rw [hrec]
          have : a.history_id < e.history_id := hmax a (List.mem_cons_self a t) hae
          simp [not_lt_of_gt this, this]

/-- Reading an attribute off a keyword-constructed projection: each name of
the generating list reads back its generated value. -/
theorem getattr_map_names (names : List String) (g : String → Value) (ed : Option Nat)
    (f : String) (hf : f ∈ names) :
    (Instance.getattr { attrs := names.map (fun n => (n, g n)), _history_editor := ed } f)
      = g f := by
  induction names with
  | nil => simp at hf
  | cons a t ih =>
      simp only [Instance.getattr, List.map_cons, List.find?]
      by_cases haf : a = f
      · subst haf; simp
      · have : (a == f) = false := by simp [haf]
        rw [this]
        have hft : f ∈ t := by
          rcases List.mem_cons.mp hf with h1 | h1
          · exact absurd h1.symm haf
          · exact h1
        simpa [Instance.getattr] using ih hft

/-- The positional constructor applied to one value per schema field, with
distinct field names: each field reads back its own value. -/
theorem getattr_positional (m : ModelSchema) (g : Field → Value) (f : Field)
    (hf : f ∈ m.fields) (hnd : (m.fields.map Field.name).Nodup) :
    (mkInstancePositional m (m.fields.map g)).getattr f.name = g f := by
  unfold mkInstancePositional Instance.getattr
  have key : ∀ (l : List Field), f ∈ l → (l.map Field.name).Nodup →
      ((l.zip (l.map g)).map (fun p => (p.1.name, p.2))).find?
        (fun p => p.1 == f.name) = Option.some (f.name, g f) := by
    intro l
    induction l with
    | nil => intro h; simp at h
    | cons a t ih =>
        intro hmem hnodup
        simp only [List.map_cons, List.zip_cons_cons, List.find?]
        by_cases haf : a = f
        · subst haf; simp
        · have hft : f ∈ t := by
            rcases List.mem_cons.mp hmem with h1 | h1
            · exact absurd h1.symm haf
            · exact h1
          have hne : (a.name == f.name) = false := by
            have : a.name ∉ t.map Field.name := (List.nodup_cons.mp hnodup).1
            have hfn : f.name ∈ t.map Field.name := List.mem_map_of_mem Field.name hft
            have : a.name ≠ f.name := fun hc => this (hc ▸ hfn)
            simp [this]
          rw [hne]
          exact ih hft (List.nodup_cons.mp hnodup).2
  rw [key m.fields hf hnd]
  rfl

/-! ### Concrete fixtures used by counterexamples and witnesses -/

/-- A plain column descriptor with the given name, kind and constraint flags. -/
def mkField (n : String) (k : FieldKind) (pk u : Bool) : Field :=
  { name := n, kind := k, primary_key := pk, unique := u, db_index := false,
    null := false, blank := false, related_name := Option.none, target := Option.none,
    verbose_name := n }

/-- A model with an auto primary key `id` and two integer columns `a`, `b`. -/
def modelAB : ModelSchema :=
  { object_name := "Thing",
    fields := [mkField "id" FieldKind.auto true false,
               mkField "a" FieldKind.integer false false,
               mkField "b" FieldKind.integer false false] }

/-- `modelAB` tracked with `HistoricalRecords()` (no allow-list). -/
def tmAll : TrackedModel :=
  { model := modelAB, hr := { _module := Option.none, _fields := Option.none } }

/-- `modelAB` tracked with `HistoricalRecords(fields=['b'])`. -/
def tmOnlyB : TrackedModel :=
  { model := modelAB, hr := { _module := Option.none, _fields := Option.some ["b"] } }

/-- An empty history table whose AutoField counter starts at 1. -/
def st0 : SaveState := { table := [], next_id := 1 }

/-- A live `modelAB` record `{id=1, a=2, b=3}` with no staged editor. -/
def inst1 : Instance :=
  { attrs := [("id", Value.int 1), ("a", Value.int 2), ("b", Value.int 3)],
    _history_editor := Option.none }

/-- The entry `post_save` writes for `inst1` on an empty table at time 10 when
`created=False`. -/
def entryC1 : HistoryEntry :=
  { history_id := 1, history_date := 10, history_type := '~',
    history_editor := Option.none,
    values := [("id", Value.int 1), ("a", Value.int 2), ("b", Value.int 3)] }

/-! ### C1 -/

/-- C1, counterexample: with an empty history table and `created=False`
(an update of a yet-unhistorized record, `raw=False`), `post_save` writes one
entry whose `history_type` is `'~'`, not the `'+'` the claim requires
"regardless of whether the triggering mutation was an insert or an update". -/
theorem C1_counterexample :
    tmAll.post_save st0 inst1 false false 10 =
      Except.ok { table := [entryC1], next_id := 2 } ∧
    entryC1.history_type = '~' ∧ ('~' : Char) ≠ '+' := by
  refine ⟨by decide, by decide, by decide⟩

/-- C1, amended: for every tracked-record save that is not a raw load, if no
historical entry exists yet for the record's id, exactly one new entry is
written, whose `history_type` is `'+'` when the mutation was an insert
(`created=True`) and `'~'` when it was an update (`created=False`), and
whose editor is the staged `_history_editor`. -/
theorem C1_first_save_writes_one_entry (tm : TrackedModel) (st : SaveState)
    (inst : Instance) (created : Bool) (now : Nat)
    (h : tm.get_queryset st.table inst = []) :
    ∃ e : HistoryEntry,
      tm.post_save st inst created false now =
        Except.ok { table := st.table ++ [e], next_id := st.next_id + 1 } ∧
      e.history_type = (if created then '+' else '~') ∧
      e.history_editor = inst._history_editor := by
  refine ⟨{ history_id := st.next_id, history_date := now,
            history_type := if created then '+' else '~',
            history_editor := inst._history_editor,
            values := tm.importantNames.map (fun f => (f, inst.getattr f)) }, ?_, rfl, rfl⟩
  have hmr : tm.most_recent st.table inst = Except.error HistoryExc.noHistoricalRecord := by
    rw [most_recent_eq, h]; rfl
  simp [TrackedModel.post_save, hmr, HistoryExc.isDoesNotExist,
    TrackedModel.create_historical_record]

/-- C1, witness for the amended theorem at a concrete input. -/
theorem C1_witness :
    ∃ e : HistoryEntry,
      tmAll.post_save st0 inst1 true false 3 =
        Except.ok { table := st0.table ++ [e], next_id := st0.next_id + 1 } ∧
      e.history_type = (if true then '+' else '~') ∧
      e.history_editor = inst1._history_editor :=
  C1_first_save_writes_one_entry tmAll st0 inst1 true 3 (by decide)

/-! ### C2 -/

/-- The sole pre-existing history row for the C2/C6 scenario: record id 1
with stored `b = 5`, under `HistoricalRecords(fields=['b'])`. -/
def entry0 : HistoryEntry :=
  { history_id := 1, history_date := 5, history_type := '+',
    history_editor := Option.none,
    values := [("id", Value.int 1), ("b", Value.int 5)] }

/-- The live record `{id=1, a=7, b=5}`: every important field (`id`, `b`)
equals the corresponding value stored on `entry0`. -/
def instA : Instance :=
  { attrs := [("id", Value.int 1), ("a", Value.int 7), ("b", Value.int 5)],
    _history_editor := Option.none }

/-- The spurious row the buggy save appends in the C2 scenario. -/
def entryC2 : HistoryEntry :=
  { history_id := 2, history_date := 20, history_type := '~',
    history_editor := Option.none,
    values := [("id", Value.int 1), ("b", Value.int 5)] }

/-- C2, evaluation at the failing input: tracking `modelAB` with
`fields=['b']`, the table holds `entry0` and every important field of `instA`
equals the value stored on that most-recent entry (first conjunct), yet
`post_save` with `created=False, raw=False` appends a new `'~'` entry
(second conjunct).  The cause: `most_recent` rebuilds the snapshot with the
positional constructor `Model(*values)`, which drops `entry0`'s `b` value
onto attribute `a`, so the comparison loop sees `b` as changed.  This
contradicts both the claim and `post_save`'s own docstring ("... only when
certain fields were changed"). -/
theorem C2_bug_eval :
    (tmOnlyB.importantNames.all
      (fun f => instA.getattr f == entry0.getValue f)) = true ∧
    tmOnlyB.post_save { table := [entry0], next_id := 2 } instA false false 20 =
      Except.ok { table := [entry0, entryC2], next_id := 3 } := by
  refine ⟨by decide, by decide⟩

/-! ### C3 -/

/-- `as_of` unfolded, given that every requested source field is stored on
the historical model. -/
theorem as_of_eq (tm : TrackedModel) (table : List HistoryEntry) (inst : Instance)
    (date : Nat)
    (hstored : ((as_of_field_names tm).all (fun n => tm.storedNames.contains n)) = true) :
    tm.as_of table inst date =
      match qsFirstDesc ((tm.get_queryset table inst).filter
          (fun e => e.history_date ≤ date)) with
      | Option.none => Except.error HistoryExc.notYetCreated
      | Option.some e =>
          if e.history_type == '-' then Except.error HistoryExc.alreadyDeleted
          else Except.ok (mkInstancePositional tm.model
            ((as_of_field_names tm).map (fun f => e.getValue f))) := by
  simp only [TrackedModel.as_of, hstored, if_true]

/-- C3: on an instance-scoped manager over a history model that stores every
source field (the default, no-allow-list registration) with distinct field
names, `as_of(t)` fails with the NotFound condition ("had not yet been
created") when no entry has `history_date ≤ t`; otherwise it acts on the
qualifying entry with the greatest `history_id`: if that entry's type is
`'-'` it fails with the distinct AlreadyDeleted condition, else it returns a
transient source-schema instance whose every field carries that entry's
stored value. -/
theorem C3_as_of_snapshot (tm : TrackedModel) (table : List HistoryEntry) (inst : Instance)
    (date : Nat)
    (hstored : ((as_of_field_names tm).all (fun n => tm.storedNames.contains n)) = true)
    (hnd : (tm.model.fields.map Field.name).Nodup) :
    HistoryExc.alreadyDeleted ≠ HistoryExc.notYetCreated ∧
    (((tm.get_queryset table inst).filter (fun e => e.history_date ≤ date)) = [] →
      tm.as_of table inst date = Except.error HistoryExc.notYetCreated) ∧
    (∀ e : HistoryEntry,
      e ∈ (tm.get_queryset table inst).filter (fun p => p.history_date ≤ date) →
      (∀ p : HistoryEntry,
         p ∈ (tm.get_queryset table inst).filter (fun q => q.history_date ≤ date) →
         p ≠ e → p.history_id < e.history_id) →
      ((e.history_type = '-' →
          tm.as_of table inst date = Except.error HistoryExc.alreadyDeleted) ∧
       (e.history_type ≠ '-' →
          ∃ r : Instance, tm.as_of table inst date = Except.ok r ∧
            ∀ f : Field, f ∈ tm.model.fields → r.getattr f.name = e.getValue f.name))) := by
  refine ⟨by decide, ?_, ?_⟩
  · intro hempty
    rw [as_of_eq tm table inst date hstored, (qsFirstDesc_eq_none _).mpr hempty]
  · intro e he hmax
    have hfst : qsFirstDesc ((tm.get_queryset table inst).filter
        (fun p => p.history_date ≤ date)) = Option.some e :=
      qsFirstDesc_eq_of_max _ e he hmax
    have has : tm.as_of table inst date =
        (if (e.history_type == '-') = true then Except.error HistoryExc.alreadyDeleted
         else Except.ok (mkInstancePositional tm.model
           ((as_of_field_names tm).map (fun f => e.getValue f)))) := by
      rw [as_of_eq tm table inst date hstored, hfst]
    constructor
    · intro hdel
      rw [has]
      simp [hdel]
    · intro hnotdel
      have hbeq : (e.history_type == '-') = false := by
        simp only [beq_eq_false_iff_ne, ne_eq]
        exact hnotdel
      rw [has, hbeq]
      simp only [Bool.false_eq_true, if_false]
      refine ⟨_, rfl, ?_⟩
      intro f hf
      have hmaps : (as_of_field_names tm).map (fun n => e.getValue n) =
          tm.model.fields.map (fun g => e.getValue g.name) := by
        simp [as_of_field_names, List.map_map]
      rw [hmaps]
      exact getattr_positional tm.model (fun g => e.getValue g.name) f hf hnd

/-- The first history row of the C3 scenario: a `'+'` entry at time 4. -/
def eC3a : HistoryEntry :=
  { history_id := 1, history_date := 4, history_type := '+',
    history_editor := Option.none,
    values := [("id", Value.int 1), ("a", Value.int 2), ("b", Value.int 3)] }

/-- The second history row of the C3 scenario: a `'-'` entry at time 7. -/
def eC3b : HistoryEntry :=
  { history_id := 2, history_date := 7, history_type := '-',
    history_editor := Option.none,
    values := [("id", Value.int 1), ("a", Value.int 2), ("b", Value.int 3)] }

/-- The two-row history table of the C3 scenario. -/
def tblC3 : List HistoryEntry := [eC3a, eC3b]

/-- C3, witness at a concrete input: the full-field tracking of `modelAB`,
a table whose latest qualifying entry at time 10 is the deletion `eC3b`. -/
theorem C3_witness :
    HistoryExc.alreadyDeleted ≠ HistoryExc.notYetCreated ∧
    (((tmAll.get_queryset tblC3 inst1).filter (fun e => e.history_date ≤ 10)) = [] →
      tmAll.as_of tblC3 inst1 10 = Except.error HistoryExc.notYetCreated) ∧
    (∀ e : HistoryEntry,
      e ∈ (tmAll.get_queryset tblC3 inst1).filter (fun p => p.history_date ≤ 10) →
      (∀ p : HistoryEntry,
         p ∈ (tmAll.get_queryset tblC3 inst1).filter (fun q => q.history_date ≤ 10) →
         p ≠ e → p.history_id < e.history_id) →
      ((e.history_type = '-' →
          tmAll.as_of tblC3 inst1 10 = Except.error HistoryExc.alreadyDeleted) ∧
       (e.history_type ≠ '-' →
          ∃ r : Instance, tmAll.as_of tblC3 inst1 10 = Except.ok r ∧
            ∀ f : Field, f ∈ tmAll.model.fields → r.getattr f.name = e.getValue f.name))) :=
  C3_as_of_snapshot tmAll tblC3 inst1 10 (by decide) (by decide)

/-! ### C4 -/

/-- A non-raw `post_save` either leaves the table unchanged or appends the
one record built from the instance, its staged editor and the
`created and '+' or '~'` type; it never raises. -/
theorem post_save_shape (tm : TrackedModel) (st : SaveState) (inst : Instance)
    (created : Bool) (now : Nat) :
    tm.post_save st inst created false now = Except.ok st ∨
    tm.post_save st inst created false now =
      Except.ok (tm.create_historical_record st inst inst._history_editor
        (if created then '+' else '~') now) := by
  cases hmr : tm.most_recent st.table inst with
  | error e =>
      cases e with
      | fieldError => exact absurd hmr (most_recent_ne_fieldError tm st.table inst)
      | noHistoricalRecord =>
          right; simp [TrackedModel.post_save, hmr, HistoryExc.isDoesNotExist]
      | notYetCreated =>
          right; simp [TrackedModel.post_save, hmr, HistoryExc.isDoesNotExist]
      | alreadyDeleted =>
          right; simp [TrackedModel.post_save, hmr, HistoryExc.isDoesNotExist]
  | ok mr =>
      cases hany : tm.importantNames.any (fun f => inst.getattr f != mr.getattr f) with
      | true => right; simp [TrackedModel.post_save, hmr, hany]
      | false => left; simp [TrackedModel.post_save, hmr, hany]

/-- C4, amended: for every save that writes a historical entry, the staged
editor (set via `set_editor` or passed as the `editor` keyword) is attached
to that entry as its `history_editor`; but the staged value is retained, not
cleared — the instance leaves the save still carrying it, so a subsequent
save without an editor argument attaches the same editor again. -/
theorem C4_editor_attached_and_retained (tm : TrackedModel) (st : SaveState)
    (inst : Instance) (ekw : Option (Option Nat)) (created : Bool) (now : Nat) :
    ∃ st' : SaveState, ∃ inst' : Instance,
      tm.save st inst ekw created false now = Except.ok (st', inst') ∧
      inst'._history_editor = (match ekw with
        | Option.some e => e
        | Option.none => inst._history_editor) ∧
      (∀ e : HistoryEntry, st'.table = st.table ++ [e] →
        e.history_editor = inst'._history_editor) ∧
      (st'.table = st.table ∨ ∃ e : HistoryEntry, st'.table = st.table ++ [e]) := by
  rcases post_save_shape tm st (captureEditor inst ekw) created now with h | h
  · refine ⟨st, captureEditor inst ekw, ?_, rfl, ?_, Or.inl rfl⟩
    · simp only [TrackedModel.save, h]
    · intro e he
      exfalso
      have := congrArg List.length he
      simp at this
  · refine ⟨tm.create_historical_record st (captureEditor inst ekw)
        (captureEditor inst ekw)._history_editor (if created then '+' else '~') now,
      captureEditor inst ekw, ?_, rfl, ?_, Or.inr ⟨_, rfl⟩⟩
    · simp only [TrackedModel.save, h]
    · intro e he
      simp only [TrackedModel.create_historical_record, List.append_cancel_left_eq,
        List.cons.injEq, and_true] at he
      rw [← he]

/-- The entry the first C4 save (with `editor=7`) writes. -/
def eC4a : HistoryEntry :=
  { history_id := 1, history_date := 1, history_type := '+',
    history_editor := Option.some 7,
    values := [("id", Value.int 1), ("a", Value.int 2), ("b", Value.int 3)] }

/-- `inst1` as the first save leaves it: the editor is still staged. -/
def instC4a : Instance :=
  { attrs := [("id", Value.int 1), ("a", Value.int 2), ("b", Value.int 3)],
    _history_editor := Option.some 7 }

/-- The record after the user then changes `b` to 99 — `_history_editor`
still holds the value the first save staged. -/
def instC4b : Instance :=
  { attrs := [("id", Value.int 1), ("a", Value.int 2), ("b", Value.int 99)],
    _history_editor := Option.some 7 }

/-- The entry the second C4 save (with no `editor` argument) writes. -/
def eC4b : HistoryEntry :=
  { history_id := 2, history_date := 2, history_type := '~',
    history_editor := Option.some 7,
    values := [("id", Value.int 1), ("a", Value.int 2), ("b", Value.int 99)] }

/-- C4, counterexample: after `save(editor=7)`, a second save of the same
record without any editor argument still attaches editor 7 to the new
entry — the staged value is never cleared, contrary to the claim that a
subsequent editor-less save attaches no editor. -/
theorem C4_counterexample :
    tmAll.save st0 inst1 (Option.some (Option.some 7)) true false 1 =
      Except.ok ({ table := [eC4a], next_id := 2 }, instC4a) ∧
    tmAll.save { table := [eC4a], next_id := 2 } instC4b Option.none false false 2 =
      Except.ok ({ table := [eC4a, eC4b], next_id := 3 }, instC4b) ∧
    eC4b.history_editor = Option.some 7 ∧ Option.some 7 ≠ (Option.none : Option Nat) := by
  refine ⟨by decide, by decide, by decide, by decide⟩

/-! ### C5 -/

/-- A custom-named primary key, as in `class Doc(models.Model):
uuid = models.CharField(primary_key=True)`. -/
def fUuidPk : Field := mkField "uuid" FieldKind.char true false

/-- The `name` column of the C5 model. -/
def fName : Field := mkField "name" FieldKind.char false false

/-- The `other` column of the C5 model. -/
def fOther : Field := mkField "other" FieldKind.integer false false

/-- A model whose primary-key field is named `uuid`, not `id`. -/
def modelC5 : ModelSchema :=
  { object_name := "Doc", fields := [fUuidPk, fName, fOther] }

/-- `HistoricalRecords(fields=['name'])` for the C5 model. -/
def hrC5 : HistoricalRecords := { _module := Option.none, _fields := Option.some ["name"] }

/-- C5, counterexample: with a primary-key field named `uuid` and the
allow-list `['name']`, the selection keeps only `name` — the primary-key
field is dropped, although the claim says the schema's primary-key field is
always selected.  The code tests the literal name `'id'`, not primary-key
status. -/
theorem C5_counterexample :
    fUuidPk ∈ modelC5.fields ∧ fUuidPk.primary_key = true ∧
    hrC5.get_important_fields modelC5 = [fName] ∧
    fUuidPk ∉ hrC5.get_important_fields modelC5 := by
  refine ⟨by decide, by decide, by decide, by decide⟩

/-- C5, amended: a field is selected as important iff its name is literally
`"id"`, or the allow-list is falsy (absent or empty), or its name is in the
allow-list; the selected fields keep the source schema's field order (the
selection is a sublist).  A custom-named primary-key field is NOT implicitly
selected. -/
theorem C5_selection_rule (hr : HistoricalRecords) (model : ModelSchema) :
    (∀ f : Field, f ∈ hr.get_important_fields model ↔
      (f ∈ model.fields ∧
        (f.name = "id" ∨ fieldsFalsy hr._fields = true ∨ f.name ∈ hr._fields.getD []))) ∧
    (hr.get_important_fields model).Sublist model.fields := by
  constructor
  · intro f
    rw [HistoricalRecords.get_important_fields, List.mem_filter]
    simp [list_contains_iff, or_assoc]
  · exact List.filter_sublist model.fields

/-! ### C6 -/

/-- What `most_recent` actually returns in the C6 scenario: `entry0`'s `b`
value has landed on attribute `a`, and `b` was never assigned. -/
def mrA : Instance :=
  { attrs := [("id", Value.int 1), ("a", Value.int 5)], _history_editor := Option.none }

/-- C6, evaluation at the failing input: tracking `modelAB` with
`fields=['b']` and the single entry `entry0` (stored `b = 5`),
`most_recent()` succeeds but the transient instance it returns does not
carry the entry's `b` value on field `b` — the positional constructor
`Model(*values)` assigned it to field `a` instead.  The NotFound half of the
claim does hold: with zero entries the manager raises `DoesNotExist`
("has no historical record"). -/
theorem C6_bug_eval :
    entry0.getValue "b" = Value.int 5 ∧
    tmOnlyB.most_recent [entry0] instA = Except.ok mrA ∧
    mrA.getattr "b" = Value.none ∧
    mrA.getattr "b" ≠ entry0.getValue "b" ∧
    mrA.getattr "a" = entry0.getValue "b" ∧
    tmOnlyB.most_recent [] instA = Except.error HistoryExc.noHistoricalRecord := by
  refine ⟨by decide, by decide, by decide, by decide, by decide, by decide⟩

/-! ### C7 -/

/-- C7: every deletion of a tracked record unconditionally appends exactly
one historical entry with `history_type = '-'` and `history_editor = None`,
whatever the current history table and staged editor are — no comparison
against the most recent entry is performed. -/
theorem C7_delete_always_records (tm : TrackedModel) (st : SaveState) (inst : Instance)
    (now : Nat) :
    ∃ e : HistoryEntry,
      tm.post_delete st inst now =
        { table := st.table ++ [e], next_id := st.next_id + 1 } ∧
      e.history_type = '-' ∧ e.history_editor = Option.none :=
  ⟨{ history_id := st.next_id, history_date := now, history_type := '-',
     history_editor := Option.none,
     values := tm.importantNames.map (fun f => (f, inst.getattr f)) }, rfl, rfl, rfl⟩

/-! ### C8 -/

/-- Reading an important field off `history_object` gives the entry's stored
value (the projection is keyword-based, unlike the manager methods). -/
theorem history_object_getattr (tm : TrackedModel) (e : HistoryEntry) (f : String)
    (hf : f ∈ tm.importantNames) :
    (e.history_object tm).getattr f = e.getValue f := by
  unfold HistoryEntry.history_object
  exact getattr_map_names tm.importantNames (fun n => e.getValue n) Option.none f hf

theorem ite_some_none_eq_some {α : Type} {c : Prop} [Decidable c] {x y : α} :
    (if c then Option.some x else Option.none) = Option.some y ↔ c ∧ x = y := by
  split_ifs with h <;> simp [h]

/-- C8: provided the primary-key column is among the stored important fields
(true of every default registration), the diff computation locates as
predecessor an entry of the table for the same tracked-record id with
`history_id` below the given entry's, maximal among such entries; when a
predecessor exists the changes are exactly one record per important field
whose value differs, carrying `{name, from_value, to_value, verbose label}`;
when none exists every important field is reported changed from unset
(`None`) to its stored value. -/
theorem C8_diff_engine (tm : TrackedModel) (table : List HistoryEntry) (e : HistoryEntry)
    (hpk : tm.model.pkName ∈ tm.importantNames) :
    (∀ p : HistoryEntry, e.previous_entry tm table = Option.some p →
      (p ∈ table ∧ p.getValue tm.model.pkName = e.getValue tm.model.pkName ∧
       p.history_id < e.history_id ∧
       (∀ q : HistoryEntry, q ∈ table →
          q.getValue tm.model.pkName = e.getValue tm.model.pkName →
          q.history_id < e.history_id → q.history_id ≤ p.history_id) ∧
       (∀ c : HistoryChange, c ∈ e.modified_fields tm table ↔
          ∃ f : String, f ∈ tm.importantNames ∧ p.getValue f ≠ e.getValue f ∧
            c = { name := f, from_value := p.getValue f, to_value := e.getValue f,
                  verbose_name := get_verbose_name tm.model f }))) ∧
    (e.previous_entry tm table = Option.none →
      e.modified_fields tm table = tm.importantNames.map (fun f =>
        { name := f, from_value := Value.none, to_value := e.getValue f,
          verbose_name := get_verbose_name tm.model f })) := by
  constructor
  · intro p hp
    have hpq : qsFirstDesc ((tm.get_queryset table (e.history_object tm)).filter
        (fun q => q.history_id < e.history_id)) = Option.some p := hp
    have hmemL := qsFirstDesc_mem _ p hpq
    rw [List.mem_filter] at hmemL
    obtain ⟨hmemQ, hlt⟩ := hmemL
    rw [TrackedModel.get_queryset, List.mem_filter] at hmemQ
    obtain ⟨hmemT, hbeq⟩ := hmemQ
    rw [history_object_getattr tm e tm.model.pkName hpk, beq_iff_eq] at hbeq
    refine ⟨hmemT, hbeq, by simpa using hlt, ?_, ?_⟩
    · intro q hq hqpk hqlt
      have hqL : q ∈ (tm.get_queryset table (e.history_object tm)).filter
          (fun r => r.history_id < e.history_id) := by
        rw [List.mem_filter]
        refine ⟨?_, by simpa using hqlt⟩
        rw [TrackedModel.get_queryset, List.mem_filter]
        exact ⟨hq, by rw [history_object_getattr tm e tm.model.pkName hpk,
          beq_iff_eq]; exact hqpk⟩
      exact qsFirstDesc_le _ p hpq q hqL
    · intro c
      simp only [HistoryEntry.modified_fields, hp, List.mem_filterMap]
      constructor
      · rintro ⟨f, hfmem, hfeq⟩
        simp only [ite_some_none_eq_some, bne_iff_ne, ne_eq] at hfeq
        exact ⟨f, hfmem, hfeq.1, hfeq.2.symm⟩
      · rintro ⟨f, hfmem, hne, hc⟩
        refine ⟨f, hfmem, ?_⟩
        simp only [ite_some_none_eq_some, bne_iff_ne, ne_eq]
        exact ⟨hne, hc.symm⟩
  · intro hnone
    simp [HistoryEntry.modified_fields, hnone]

/-! ### C9 -/

/-- A plain (not unique, not primary-key) many-to-one relation field with a
custom reverse-relation name. -/
def fkPlain : Field :=
  { name := "owner", kind := FieldKind.foreignKey, primary_key := false, unique := false,
    db_index := false, null := false, blank := false,
    related_name := Option.some "things", target := Option.some "User",
    verbose_name := "owner" }

/-- A model containing `fkPlain`, tracked without an allow-list. -/
def modelC9 : ModelSchema :=
  { object_name := "Gadget",
    fields := [mkField "id" FieldKind.auto true false, fkPlain] }

/-- `HistoricalRecords()` with no arguments. -/
def hrAll : HistoricalRecords := { _module := Option.none, _fields := Option.none }

/-- C9, counterexample: `fkPlain` is a selected field matched by none of the
claim's three transformation rows (not auto-incrementing, not primary-key or
unique, not one-to-one), so per the claim it should be deep-copied
attribute-for-attribute; but the code rewrites its reverse-relation name to
`'+'`, so the copy differs from the original. -/
theorem C9_counterexample :
    fkPlain ∈ hrAll.get_important_fields modelC9 ∧
    fkPlain.kind ≠ FieldKind.auto ∧ fkPlain.primary_key = false ∧
    fkPlain.unique = false ∧ fkPlain.kind ≠ FieldKind.oneToOne ∧
    copy_field fkPlain ≠ fkPlain ∧
    (copy_field fkPlain).related_name = Option.some "+" := by
  refine ⟨by decide, by decide, by decide, by decide, by decide, by decide, by decide⟩

/-- C9, amended: every selected field obeys the transformation table — an
auto-incrementing field becomes a plain integer field; a field flagged
primary-key or unique loses both statuses and gains a non-unique secondary
index; a one-to-one relation becomes a nullable many-to-one relation to the
same target; any relation field (many-to-one or one-to-one) gets its
reverse-relation name suppressed to `'+'`; and only fields matching none of
these rules are copied attribute-for-attribute. -/
theorem C9_transformation_table (hr : HistoricalRecords) (model : ModelSchema) (f : Field)
    (_hsel : f ∈ hr.get_important_fields model) :
    (f.kind = FieldKind.auto → (copy_field f).kind = FieldKind.integer) ∧
    ((f.primary_key = true ∨ f.unique = true) →
       (copy_field f).primary_key = false ∧ (copy_field f).unique = false ∧
       (copy_field f).db_index = true) ∧
    (f.kind = FieldKind.oneToOne →
       (copy_field f).kind = FieldKind.foreignKey ∧ (copy_field f).null = true ∧
       (copy_field f).target = f.target ∧ (copy_field f).unique = false ∧
       (copy_field f).primary_key = false) ∧
    ((f.kind = FieldKind.foreignKey ∨ f.kind = FieldKind.oneToOne) →
       (copy_field f).related_name = Option.some "+") ∧
    ((f.kind ≠ FieldKind.auto ∧ f.primary_key = false ∧ f.unique = false ∧
      f.kind ≠ FieldKind.foreignKey ∧ f.kind ≠ FieldKind.oneToOne) →
       copy_field f = f) := by
  rcases f with ⟨n, k, pk, u, dbi, nl, bl, rn, tg, vb⟩
  cases k <;> cases pk <;> cases u <;> simp [copy_field]

/-! ### C10 -/

/-- C10: `as_of` asks `values_list` for every source-schema field, while
`most_recent` asks only for the registered important fields.  When the
registration's allow-list leaves some source field out of the historical
schema, `as_of` therefore fails with a FieldError for every table and
timestamp — it can never succeed — while `most_recent` reads only stored
columns and never raises that error. -/
theorem C10_projection_asymmetry (tm : TrackedModel) (table : List HistoryEntry)
    (inst : Instance) (date : Nat) (f : Field)
    (hf : f ∈ tm.model.fields) (hmiss : f.name ∉ tm.storedNames) :
    tm.as_of table inst date = Except.error HistoryExc.fieldError ∧
    (∀ n : String, n ∈ tm.importantNames → n ∈ tm.storedNames) ∧
    tm.most_recent table inst ≠ Except.error HistoryExc.fieldError := by
  refine ⟨?_, ?_, most_recent_ne_fieldError tm table inst⟩
  · have hmem : f.name ∈ as_of_field_names tm := List.mem_map_of_mem Field.name hf
    have hall : ((as_of_field_names tm).all (fun n => tm.storedNames.contains n)) = false := by
      cases hcase : (as_of_field_names tm).all (fun n => tm.storedNames.contains n) with
      | false => rfl
      | true =>
          exfalso
          have := (List.all_eq_true.mp hcase) f.name hmem
          exact hmiss ((list_contains_iff _ _).mp this)
    simp [TrackedModel.as_of, hall]
    intro hcond
    exact absurd (hcond f.name hmem) hmiss
  · intro n hn
    rw [storedNames_eq]
    exact hn

/-! ### Witnesses for the hypothesis-bearing theorems of C8, C9 and C10 -/

/-- C8, witness at a concrete input: the diff of `eC3b` over the two-row
table `tblC3` under full-field tracking. -/
theorem C8_witness :
    (∀ p : HistoryEntry, eC3b.previous_entry tmAll tblC3 = Option.some p →
      (p ∈ tblC3 ∧ p.getValue tmAll.model.pkName = eC3b.getValue tmAll.model.pkName ∧
       p.history_id < eC3b.history_id ∧
       (∀ q : HistoryEntry, q ∈ tblC3 →
          q.getValue tmAll.model.pkName = eC3b.getValue tmAll.model.pkName →
          q.history_id < eC3b.history_id → q.history_id ≤ p.history_id) ∧
       (∀ c : HistoryChange, c ∈ eC3b.modified_fields tmAll tblC3 ↔
          ∃ f : String, f ∈ tmAll.importantNames ∧ p.getValue f ≠ eC3b.getValue f ∧
            c = { name := f, from_value := p.getValue f, to_value := eC3b.getValue f,
                  verbose_name := get_verbose_name tmAll.model f }))) ∧
    (eC3b.previous_entry tmAll tblC3 = Option.none →
      eC3b.modified_fields tmAll tblC3 = tmAll.importantNames.map (fun f =>
        { name := f, from_value := Value.none, to_value := eC3b.getValue f,
          verbose_name := get_verbose_name tmAll.model f })) :=
  C8_diff_engine tmAll tblC3 eC3b (by decide)

/-- C9, witness at a concrete input: the transformation table evaluated on
the selected relation field `fkPlain`. -/
theorem C9_witness :
    (fkPlain.kind = FieldKind.auto → (copy_field fkPlain).kind = FieldKind.integer) ∧
    ((fkPlain.primary_key = true ∨ fkPlain.unique = true) →
       (copy_field fkPlain).primary_key = false ∧ (copy_field fkPlain).unique = false ∧
       (copy_field fkPlain).db_index = true) ∧
    (fkPlain.kind = FieldKind.oneToOne →
       (copy_field fkPlain).kind = FieldKind.foreignKey ∧
       (copy_field fkPlain).null = true ∧
       (copy_field fkPlain).target = fkPlain.target ∧
       (copy_field fkPlain).unique = false ∧
       (copy_field fkPlain).primary_key = false) ∧
    ((fkPlain.kind = FieldKind.foreignKey ∨ fkPlain.kind = FieldKind.oneToOne) →
       (copy_field fkPlain).related_name = Option.some "+") ∧
    ((fkPlain.kind ≠ FieldKind.auto ∧ fkPlain.primary_key = false ∧
      fkPlain.unique = false ∧ fkPlain.kind ≠ FieldKind.foreignKey ∧
      fkPlain.kind ≠ FieldKind.oneToOne) →
       copy_field fkPlain = fkPlain) :=
  C9_transformation_table hrAll modelC9 fkPlain (by decide)

/-- The excluded column `a` of `modelAB`, used to witness C10. -/
def fieldA : Field := mkField "a" FieldKind.integer false false

/-- C10, witness at a concrete input: under `HistoricalRecords(fields=['b'])`
the source field `a` is not stored, so `as_of` always fails with FieldError
while `most_recent` never does. -/
theorem C10_witness :
    tmOnlyB.as_of [] instA 0 = Except.error HistoryExc.fieldError ∧
    (∀ n : String, n ∈ tmOnlyB.importantNames → n ∈ tmOnlyB.storedNames) ∧
    tmOnlyB.most_recent [] instA ≠ Except.error HistoryExc.fieldError :=
  C10_projection_asymmetry tmOnlyB [] instA 0 fieldA (by decide) (by decide)

end History
